import Mathlib

/-!
# Verification of the safe-units unit-arithmetic engine

A shallow embedding, in Lean 4, of the parts of the `safe-units` repository
that the specification's claims are about:

* the exponent-operator code generator (`genOperatorTypes`, `genUncurriedType`,
  `genCurriedType`) that emits per-exponent conditional-type lookup tables;
* the unit formatter (`formatUnit`, `formatDimensions`, `negateDimension`,
  `maybeParenthesize`, `isDimensionPresent`, `orderDimensions`);
* the generic measure layer (`IGenericMeasure`), whose interface is in the
  sources and whose class implementation is modelled from the spec where noted.

TypeScript `number` exponents are embedded as `ℤ`; a `UnitWithSymbols` object
(a mapping whose values are `[symbol, exponent]` pairs or `undefined`) is
embedded as the list of its values in key-enumeration order, i.e.
`List (Option (String × ℤ))`.
-/

namespace SafeUnits

/-- Modelled from the spec: the exponent domain `D`, the fixed ordered set of
supported integer exponents, `-4..4` inclusive of 0 in the reference system.
The `EXPONENTS` constant lives in the codegen `common` module, which is not
among the provided sources. -/
def EXPONENTS : List ℤ := [-4, -3, -2, -1, 0, 1, 2, 3, 4]

/-! ## Unit formatter (from the `format` module of the sources) -/

/-- `SymbolAndExponent`: a `[string, Exponent]` pair. -/
abbrev SymbolAndExponent : Type := String × ℤ

/-- `UnitWithSymbols`, seen through `Object.keys(unit).map(d => unit[d])`:
the list of per-dimension entries, each a symbol/exponent pair or `undefined`. -/
abbrev UnitWithSymbols : Type := List (Option SymbolAndExponent)

/-- `isDimensionPresent`: an entry is present when it is defined and its
exponent is non-zero. -/
def isDimensionPresent : Option SymbolAndExponent → Bool
  | none => false
  | some d => d.2 ≠ 0

/-- The `filter(isDimensionPresent)` step of `formatUnit`, together with the
type-guard narrowing from `Option SymbolAndExponent` to `SymbolAndExponent`. -/
def presentDimensions (unit : UnitWithSymbols) : List SymbolAndExponent :=
  unit.filterMap fun o => if isDimensionPresent o then o else none

/-- `orderDimensions`: the sort comparator, ordering entries by display symbol
(lexicographic over the symbol's character sequence, as JS string `<` is).
The source comparator returns `-1` when `leftSymbol < rightSymbol` and `1`
otherwise; on pairwise-distinct symbols this sorts ascending by symbol, and on
tied symbols the JS sort's behaviour is implementation-defined, modelled here
as the stable order. -/
def orderDimensions (a b : SymbolAndExponent) : Prop := a.1.data ≤ b.1.data

/-- The character-sequence order of `orderDimensions` is the string order. -/
theorem orderDimensions_iff (a b : SymbolAndExponent) :
    orderDimensions a b ↔ a.1 ≤ b.1 :=
  String.le_iff_toList_le.symm

instance : DecidableRel orderDimensions := fun a b =>
  inferInstanceAs (Decidable (a.1.data ≤ b.1.data))

instance : IsTotal SymbolAndExponent orderDimensions :=
  ⟨fun a b => by
    rcases le_total a.1 b.1 with h | h
    · exact Or.inl ((orderDimensions_iff a b).mpr h)
    · exact Or.inr ((orderDimensions_iff b a).mpr h)⟩

instance : IsTrans SymbolAndExponent orderDimensions :=
  ⟨fun a b c h h' => (orderDimensions_iff a c).mpr
    (le_trans ((orderDimensions_iff a b).mp h) ((orderDimensions_iff b c).mp h'))⟩

/-- The `dimensions` local of `formatUnit`: present entries, sorted by symbol. -/
def sortedDimensions (unit : UnitWithSymbols) : List SymbolAndExponent :=
  List.insertionSort orderDimensions (presentDimensions unit)

/-- The `positive` local of `formatUnit`: entries with exponent `> 0`. -/
def positiveDimensions (unit : UnitWithSymbols) : List SymbolAndExponent :=
  (sortedDimensions unit).filter fun d => 0 < d.2

/-- The `negative` local of `formatUnit`: entries with exponent `< 0`. -/
def negativeDimensions (unit : UnitWithSymbols) : List SymbolAndExponent :=
  (sortedDimensions unit).filter fun d => d.2 < 0

/-- `formatDimensions`: symbols joined by `" * "`, each followed by
`^<exponent>` when the exponent is not 1. -/
def formatDimensions (dimensions : List SymbolAndExponent) : String :=
  String.intercalate " * " <| dimensions.map fun d =>
    let exponentStr := if d.2 ≠ 1 then "^" ++ toString d.2 else ""
    d.1 ++ exponentStr

/-- `negateDimension`: negate the exponent, keep the symbol. -/
def negateDimension (d : SymbolAndExponent) : SymbolAndExponent := (d.1, -d.2)

/-- `maybeParenthesize`: wrap in parentheses when asked to. -/
def maybeParenthesize (text : String) (parenthesize : Bool) : String :=
  if parenthesize then "(" ++ text ++ ")" else text

/-- `formatUnit`: render a unit as a human-readable string. -/
def formatUnit (unit : UnitWithSymbols) : String :=
  if (sortedDimensions unit).length = 0 then ""
  else if (positiveDimensions unit).length = 0 then
    formatDimensions (negativeDimensions unit)
  else if (negativeDimensions unit).length = 0 then
    formatDimensions (positiveDimensions unit)
  else
    formatDimensions (positiveDimensions unit) ++ " / " ++
      maybeParenthesize (formatDimensions ((negativeDimensions unit).map negateDimension))
        ((negativeDimensions unit).length ≠ 1)

example : formatUnit [some ("m", 1)] = "m" := by rfl
example : formatUnit [some ("m", 1), some ("s", -2)] = "m / s^2" := by rfl
example : formatUnit [some ("kg", 1), some ("m", 1), some ("s", -2)] = "kg * m / s^2" := by rfl
example : formatUnit [] = "" := by rfl

/-! ## Exponent-operator code generator (from the `genOperatorTypes` module)

`genOperatorTypes` emits a TypeScript conditional type per operator: an
uncurried type dispatching on the left exponent, and, for every left exponent
without a special case, a curried type dispatching on the right exponent whose
branches hold `compute(left, right)` whenever that result is in the domain and
whose fallback is `ArithmeticError`.  The emitted text is embedded here by its
branch structure, and a conditional type's evaluation at a concrete exponent is
the first-matching-branch scan `evalConditionalType`. -/

/-- `OperatorCodeGenOptions`: the `specialCases` mapping (key-presence embedded
as `Option`) and the `compute` function of the operator being generated. -/
structure OperatorCodeGenOptions where
  specialCases : ℤ → Option String
  compute : ℤ → ℤ → ℤ

/-- The outcome of evaluating a generated curried lookup type at a concrete
right-hand exponent: a result exponent, or the `ArithmeticError` marker emitted
by `genErrorCase`. -/
inductive LookupOutcome where
  | value (n : ℤ)
  | arithmeticError
deriving DecidableEq

/-- The branches `genCurriedType` emits for a left exponent: one
`N extends right ? result` branch per right exponent whose computed result is
itself in `EXPONENTS`. -/
def genCurriedTypeBranches (options : OperatorCodeGenOptions) (left : ℤ) :
    List (ℤ × ℤ) :=
  EXPONENTS.filterMap fun right =>
    let result := options.compute left right
    if result ∈ EXPONENTS then some (right, result) else none

/-- Evaluation of an emitted conditional type at a concrete exponent `n`:
the first branch whose guard exponent equals `n` wins; when no branch matches,
the `genErrorCase` fallback yields `ArithmeticError`. -/
def evalConditionalType : List (ℤ × ℤ) → ℤ → LookupOutcome
  | [], _ => .arithmeticError
  | (r, v) :: rest, n => if n = r then .value v else evalConditionalType rest n

/-- The generated curried lookup for a left exponent, as the function it
denotes on concrete right exponents. -/
def genCurriedTypeLookup (options : OperatorCodeGenOptions) (left n : ℤ) :
    LookupOutcome :=
  evalConditionalType (genCurriedTypeBranches options left) n

/-- A branch of the uncurried type: the special-case expression verbatim, or a
reference to the generated curried type for that left exponent. -/
inductive UncurriedBranch where
  | special (expr : String)
  | curriedRef (left : ℤ)
deriving DecidableEq

/-- The branches `genUncurriedType` emits: one per left exponent, in
`EXPONENTS` order — the special-case expression when `left in specialCases`,
else a reference to `<curriedTypeName(left)><R>`. -/
def genUncurriedTypeBranches (options : OperatorCodeGenOptions) :
    List (ℤ × UncurriedBranch) :=
  EXPONENTS.map fun left =>
    match options.specialCases left with
    | some expr => (left, .special expr)
    | none => (left, .curriedRef left)

/-- The left exponents for which `genOperatorTypes` emits a curried lookup
table: exactly those without a special case (`if (!(left in
options.specialCases)) lines.push(...genCurriedType(options, left))`). -/
def genOperatorTypesCurriedTables (options : OperatorCodeGenOptions) : List ℤ :=
  EXPONENTS.filter fun left => (options.specialCases left).isNone

/-! ## Generic measure layer

The `IGenericMeasure` interface and `INumericOperations` contract are in the
sources (`src/measure/genericMeasure.ts`); the class implementing them and the
unit-arithmetic value functions are not, so their bodies are modelled from the
spec where marked. -/

/-- The `ArithmeticError` marker raised when a unit-algebra operation leaves
the exponent domain. -/
inductive ArithmeticError where
  | mk
deriving DecidableEq

/-- `INumericOperations<N>`: the injectable numeric primitives. -/
structure INumericOperations (N : Type) where
  one : N
  neg : N → N
  add : N → N → N
  sub : N → N → N
  mult : N → N → N
  div : N → N → N
  pow : N → ℤ → N
  compare : N → N → ℤ
  format : N → String

/-- A measure: a numeric value, a unit vector with display symbols, and an
optional display symbol for the measure itself. -/
structure GenericMeasure (N : Type) where
  value : N
  unit : UnitWithSymbols
  symbol : Option String
deriving DecidableEq

/-- Modelled from the spec: `AllowedExponents<U>` (its defining module
`unitTypeArithmetic` is not among the sources) — the exponents, drawn from the
domain, that keep every present dimension's scaled exponent within the
domain. -/
def allowedExponent (unit : UnitWithSymbols) (e : ℤ) : Bool :=
  decide (e ∈ EXPONENTS) &&
    (presentDimensions unit).all fun d => decide (d.2 * e ∈ EXPONENTS)

/-- Pointwise exponent scaling of a unit's entries by `k`. -/
def scaleUnit (unit : UnitWithSymbols) (k : ℤ) : UnitWithSymbols :=
  unit.map (Option.map fun d => (d.1, d.2 * k))

/-- Modelled from the spec: `exponentiateUnit(u, k)` (its defining module is
not among the sources) — scale every dimension's exponent by `k`, failing with
`ArithmeticError` when any present dimension's result leaves the domain. -/
def exponentiateUnit (unit : UnitWithSymbols) (k : ℤ) :
    Except ArithmeticError UnitWithSymbols :=
  if (presentDimensions unit).all (fun d => decide (d.2 * k ∈ EXPONENTS)) then
    .ok (scaleUnit unit k)
  else
    .error .mk

/-- Modelled from the spec: `toThe(exponent)` (the measure-class implementation
is not among the sources) — unit via `exponentiateUnit`, propagating its
failure; value via the contract's `pow`; result carries no symbol. -/
def toThe (num : INumericOperations N) (m : GenericMeasure N) (e : ℤ) :
    Except ArithmeticError (GenericMeasure N) :=
  (exponentiateUnit m.unit e).map fun u => ⟨num.pow m.value e, u, none⟩

/-- The interface field `squared: 2 extends AllowedExponents<U> ? () =>
IGenericMeasure<N, ExponentiateUnit<U, 2>> : never` — the operation is an
available method (`some`) exactly when `2` is an allowed exponent for the
measure's unit, and is `never` (`none`, not callable) otherwise. -/
def squared (num : INumericOperations N) (m : GenericMeasure N) :
    Option (Except ArithmeticError (GenericMeasure N)) :=
  if allowedExponent m.unit 2 then some (toThe num m 2) else none

/-- The interface field `cubed: 3 extends AllowedExponents<U> ? () =>
IGenericMeasure<N, ExponentiateUnit<U, 3>> : never`, as for `squared`. -/
def cubed (num : INumericOperations N) (m : GenericMeasure N) :
    Option (Except ArithmeticError (GenericMeasure N)) :=
  if allowedExponent m.unit 3 then some (toThe num m 3) else none

/-- Modelled from the spec: `toString()` (the measure-class implementation is
not among the sources) — the value formatted via the contract's `format`,
followed by the formatted unit, space-separated; the unit segment is omitted
entirely when the formatted unit is empty. -/
def GenericMeasure.toDisplayString (num : INumericOperations N)
    (m : GenericMeasure N) : String :=
  if formatUnit m.unit = "" then num.format m.value
  else num.format m.value ++ " " ++ formatUnit m.unit

/-- Modelled from the spec: `in(unit)` (the measure-class implementation is not
among the sources; `in` is reserved in Lean, hence `inUnit`) — when the given
unit-measure carries a symbol, divide this measure's value by its value and
format the quotient followed by that symbol; otherwise fall back to
`toString()`. -/
def GenericMeasure.inUnit (num : INumericOperations N)
    (m unit : GenericMeasure N) : String :=
  match unit.symbol with
  | none => m.toDisplayString num
  | some s => num.format (num.div m.value unit.value) ++ " " ++ s

/-- A concrete numeric-operations instance over `ℤ`, used to instantiate the
measure layer on concrete inputs. -/
def intOps : INumericOperations ℤ where
  one := 1
  neg := Int.neg
  add := Int.add
  sub := Int.sub
  mult := Int.mul
  div := Int.tdiv
  pow := fun b e => b ^ e.toNat
  compare := Int.sub
  format := fun n => toString n

/-! ## Helper lemmas about the formatter -/

/-- Present-dimension collection distributes over concatenation. -/
theorem presentDimensions_append (u v : UnitWithSymbols) :
    presentDimensions (u ++ v) = presentDimensions u ++ presentDimensions v :=
  List.filterMap_append u v _

/-- `formatUnit` only looks at a unit through its sorted present dimensions. -/
theorem formatUnit_congr {u v : UnitWithSymbols}
    (h : sortedDimensions u = sortedDimensions v) : formatUnit u = formatUnit v := by
  unfold formatUnit positiveDimensions negativeDimensions
  rw [h]

/-- Sorting only looks at a unit through its present dimensions. -/
theorem sortedDimensions_congr {u v : UnitWithSymbols}
    (h : presentDimensions u = presentDimensions v) :
    sortedDimensions u = sortedDimensions v := by
  unfold sortedDimensions
  rw [h]

/-- Every sorted dimension is a present dimension (up to permutation), so its
exponent is non-zero. -/
theorem sortedDimensions_exponent_ne_zero (unit : UnitWithSymbols) :
    ∀ d ∈ sortedDimensions unit, d.2 ≠ 0 := by
  intro d hd
  have hmem : d ∈ presentDimensions unit :=
    (List.perm_insertionSort orderDimensions (presentDimensions unit)).mem_iff.mp hd
  obtain ⟨o, _, ho⟩ := List.mem_filterMap.mp hmem
  by_cases hp : isDimensionPresent o
  · rw [if_pos hp] at ho
    subst ho
    simpa [isDimensionPresent] using hp
  · rw [if_neg hp] at ho
    cases ho

/-- Dimensions in the negative group have negative exponents. -/
theorem negativeDimensions_neg (unit : UnitWithSymbols) :
    ∀ d ∈ negativeDimensions unit, d.2 < 0 := by
  intro d hd
  have := (List.mem_filter.mp hd).2
  exact of_decide_eq_true this

/-! ## The claims -/

/-- Claim C2: `formatUnit` returns exactly the golden strings: `{m: 1}`
formats as `"m"`, `{m: 1, s: -2}` as `"m / s^2"`, `{kg: 1, m: 1, s: -2}` as
`"kg * m / s^2"`, and the dimensionless unit as `""`. -/
theorem formatUnit_golden_cases :
    formatUnit [some ("m", 1)] = "m" ∧
    formatUnit [some ("m", 1), some ("s", -2)] = "m / s^2" ∧
    formatUnit [some ("kg", 1), some ("m", 1), some ("s", -2)] = "kg * m / s^2" ∧
    formatUnit [] = "" :=
  ⟨rfl, rfl, rfl, rfl⟩

/-- Claim C3: on a unit with at least one positive- and one negative-exponent
dimension, `formatUnit` renders numerator `/` denominator, the denominator's
exponents negated (hence positive), parenthesized exactly when the denominator
has more than one dimension. -/
theorem formatUnit_mixed_signs (unit : UnitWithSymbols)
    (hp : positiveDimensions unit ≠ [])
    (hn : negativeDimensions unit ≠ []) :
    formatUnit unit =
      formatDimensions (positiveDimensions unit) ++ " / " ++
        (if 1 < (negativeDimensions unit).length then
          "(" ++ formatDimensions ((negativeDimensions unit).map negateDimension) ++ ")"
        else formatDimensions ((negativeDimensions unit).map negateDimension)) ∧
    ∀ d ∈ (negativeDimensions unit).map negateDimension, 0 < d.2 := by
  constructor
  · have h0 : ¬(sortedDimensions unit).length = 0 := by
      intro h
      apply hp
      unfold positiveDimensions
      rw [List.length_eq_zero.mp h]
      rfl
    have hplen : ¬(positiveDimensions unit).length = 0 := fun h =>
      hp (List.length_eq_zero.mp h)
    have hnlen : ¬(negativeDimensions unit).length = 0 := fun h =>
      hn (List.length_eq_zero.mp h)
    unfold formatUnit
    rw [if_neg h0, if_neg hplen, if_neg hnlen]
    by_cases hgt : 1 < (negativeDimensions unit).length
    · have hne : (negativeDimensions unit).length ≠ 1 := by omega
      simp [maybeParenthesize, hne, hgt]
    · have heq : (negativeDimensions unit).length = 1 := by omega
      simp [maybeParenthesize, heq]
  · intro d hd
    obtain ⟨e, he, rfl⟩ := List.mem_map.mp hd
    have := negativeDimensions_neg unit e he
    simp only [negateDimension]
    omega

/-- Closed instance of C3 at the unit `{m: 1, s: -2}`. -/
theorem formatUnit_mixed_signs_witness :
    formatUnit [some ("m", 1), some ("s", -2)] =
      formatDimensions (positiveDimensions [some ("m", 1), some ("s", -2)]) ++ " / " ++
        (if 1 < (negativeDimensions [some ("m", 1), some ("s", -2)]).length then
          "(" ++ formatDimensions
            ((negativeDimensions [some ("m", 1), some ("s", -2)]).map negateDimension) ++ ")"
        else formatDimensions
          ((negativeDimensions [some ("m", 1), some ("s", -2)]).map negateDimension)) ∧
    ∀ d ∈ (negativeDimensions [some ("m", 1), some ("s", -2)]).map negateDimension, 0 < d.2 :=
  formatUnit_mixed_signs [some ("m", 1), some ("s", -2)] (by decide) (by decide)

/-- Claim C4: on a unit whose present dimensions all carry negative exponents,
`formatUnit` renders the negative group directly, with its original negative
exponents, with no numerator and no negation. -/
theorem formatUnit_all_negative (unit : UnitWithSymbols)
    (hne : sortedDimensions unit ≠ [])
    (hneg : ∀ d ∈ sortedDimensions unit, d.2 < 0) :
    formatUnit unit = formatDimensions (sortedDimensions unit) := by
  have h0 : ¬(sortedDimensions unit).length = 0 := fun h =>
    hne (List.length_eq_zero.mp h)
  have hpos : positiveDimensions unit = [] := by
    unfold positiveDimensions
    refine List.filter_eq_nil_iff.mpr fun d hd => ?_
    have := hneg d hd
    simp only [decide_eq_true_eq]
    omega
  have hnegall : negativeDimensions unit = sortedDimensions unit := by
    unfold negativeDimensions
    refine List.filter_eq_self.mpr fun d hd => ?_
    simpa using hneg d hd
  unfold formatUnit
  rw [if_neg h0, if_pos (by rw [hpos]; rfl), hnegall]

/-- Closed instance of C4 at the unit `{s: -2}`, whose rendering keeps the
original negative exponent: `"s^-2"`. -/
theorem formatUnit_all_negative_witness :
    formatUnit [some ("s", -2)] = formatDimensions (sortedDimensions [some ("s", -2)]) ∧
    formatDimensions (sortedDimensions [some ("s", -2)]) = "s^-2" :=
  ⟨formatUnit_all_negative [some ("s", -2)] (by decide) (by decide), rfl⟩

/-- Claim C5: `formatUnit` works on the non-zero dimensions (a permutation of
the present entries), splits them into the positive- and negative-exponent
groups, each group's symbols appearing in ascending lexicographic order; a
group renders as its symbols joined by `" * "`, each followed by
`^<exponent>` exactly when the rendered exponent is not 1. -/
theorem formatUnit_groups_sorted_and_rendered (unit : UnitWithSymbols) :
    (sortedDimensions unit).Perm (presentDimensions unit) ∧
    (∀ d ∈ sortedDimensions unit, d.2 ≠ 0) ∧
    List.Sorted orderDimensions (positiveDimensions unit) ∧
    List.Sorted orderDimensions (negativeDimensions unit) ∧
    ∀ dims : List SymbolAndExponent,
      formatDimensions dims = String.intercalate " * "
        (dims.map fun d => d.1 ++ (if d.2 = 1 then "" else "^" ++ toString d.2)) := by
  refine ⟨List.perm_insertionSort orderDimensions (presentDimensions unit),
    sortedDimensions_exponent_ne_zero unit, ?_, ?_, ?_⟩
  · exact (List.sorted_insertionSort orderDimensions (presentDimensions unit)).filter _
  · exact (List.sorted_insertionSort orderDimensions (presentDimensions unit)).filter _
  · intro dims
    unfold formatDimensions
    have : (fun d : SymbolAndExponent =>
        d.1 ++ (if d.2 ≠ 1 then "^" ++ toString d.2 else "")) =
        fun d : SymbolAndExponent =>
        d.1 ++ (if d.2 = 1 then "" else "^" ++ toString d.2) := by
      funext d
      by_cases h : d.2 = 1 <;> simp [h]
    rw [this]

/-- Claim C9: a dimension entry that is `undefined`, and one mapped to
exponent 0, behave exactly like an absent dimension: inserting either anywhere
in a unit never changes `formatUnit`'s output. -/
theorem formatUnit_ignores_absent_entries (pre post : UnitWithSymbols) (s : String) :
    formatUnit (pre ++ none :: post) = formatUnit (pre ++ post) ∧
    formatUnit (pre ++ some (s, 0) :: post) = formatUnit (pre ++ post) := by
  have hbase : presentDimensions (pre ++ post) =
      presentDimensions pre ++ presentDimensions post := presentDimensions_append pre post
  constructor
  · apply formatUnit_congr
    apply sortedDimensions_congr
    rw [hbase]
    rw [presentDimensions_append pre (none :: post)]
    congr 1
  · apply formatUnit_congr
    apply sortedDimensions_congr
    rw [hbase]
    rw [presentDimensions_append pre (some (s, 0) :: post)]
    congr 1

/-- Strict symbol order on dimension entries. -/
def symbolLt (a b : SymbolAndExponent) : Prop := a.1 < b.1

instance : IsAntisymm SymbolAndExponent symbolLt :=
  ⟨fun a _ h h' => absurd (lt_trans h h') (lt_irrefl a.1)⟩

/-- Claim C10: when the present dimensions carry pairwise distinct display
symbols, `formatUnit` is invariant under any permutation of the order in which
the unit's dimensions are enumerated. -/
theorem formatUnit_perm_invariant (u v : UnitWithSymbols) (hperm : u.Perm v)
    (hdist : (presentDimensions u).Pairwise fun a b => a.1 ≠ b.1) :
    formatUnit u = formatUnit v := by
  have p : (presentDimensions u).Perm (presentDimensions v) := hperm.filterMap _
  have qu := List.perm_insertionSort orderDimensions (presentDimensions u)
  have qv := List.perm_insertionSort orderDimensions (presentDimensions v)
  have q : (sortedDimensions u).Perm (sortedDimensions v) :=
    qu.trans (p.trans qv.symm)
  have hsymm : ∀ {x y : SymbolAndExponent}, x.1 ≠ y.1 → y.1 ≠ x.1 :=
    fun h => Ne.symm h
  have d1 : (sortedDimensions u).Pairwise fun a b => a.1 ≠ b.1 :=
    (List.Perm.pairwise_iff hsymm qu).mpr hdist
  have d2 : (sortedDimensions v).Pairwise fun a b => a.1 ≠ b.1 :=
    (List.Perm.pairwise_iff hsymm (q.symm.trans qu)).mpr hdist
  have s1 : List.Sorted symbolLt (sortedDimensions u) :=
    ((List.sorted_insertionSort orderDimensions (presentDimensions u)).and d1).imp
      fun hab => lt_of_le_of_ne ((orderDimensions_iff _ _).mp hab.1) hab.2
  have s2 : List.Sorted symbolLt (sortedDimensions v) :=
    ((List.sorted_insertionSort orderDimensions (presentDimensions v)).and d2).imp
      fun hab => lt_of_le_of_ne ((orderDimensions_iff _ _).mp hab.1) hab.2
  exact formatUnit_congr (List.eq_of_perm_of_sorted q s1 s2)

/-- Closed instance of C10: enumerating `{m: 1, s: -2}` in either order
formats identically. -/
theorem formatUnit_perm_invariant_witness :
    formatUnit [some ("s", -2), some ("m", 1)] =
      formatUnit [some ("m", 1), some ("s", -2)] :=
  formatUnit_perm_invariant [some ("s", -2), some ("m", 1)]
    [some ("m", 1), some ("s", -2)] (by decide) (by decide)

/-! ## Codegen lemmas -/

/-- When no branch's guard exponent equals `n`, the conditional type falls
through to its `ArithmeticError` case. -/
theorem evalConditionalType_no_match (l : List (ℤ × ℤ)) (n : ℤ)
    (h : ∀ p ∈ l, p.1 ≠ n) : evalConditionalType l n = .arithmeticError := by
  induction l with
  | nil => rfl
  | cons p rest ih =>
    obtain ⟨r, v⟩ := p
    have hr : r ≠ n := h (r, v) (List.mem_cons_self (r, v) rest)
    unfold evalConditionalType
    rw [if_neg (fun hn => hr hn.symm)]
    exact ih fun q hq => h q (List.mem_cons_of_mem _ hq)

/-- Every branch guard emitted for the right-exponent list comes from that
list. -/
theorem genCurriedTypeBranches_guard_mem (f : ℤ → ℤ) (rs : List ℤ) (p : ℤ × ℤ)
    (hp : p ∈ rs.filterMap fun right =>
      if f right ∈ EXPONENTS then some (right, f right) else none) :
    p.1 ∈ rs := by
  obtain ⟨r, hr, hif⟩ := List.mem_filterMap.mp hp
  by_cases hdom : f r ∈ EXPONENTS
  · rw [if_pos hdom] at hif
    cases hif
    exact hr
  · rw [if_neg hdom] at hif
    cases hif

/-- First-match evaluation of the branches generated over a duplicate-free
right-exponent list agrees with directly checking the computed result. -/
theorem evalConditionalType_filterMap (f : ℤ → ℤ) (rs : List ℤ)
    (hnd : rs.Nodup) (n : ℤ) (hn : n ∈ rs) :
    evalConditionalType
      (rs.filterMap fun right =>
        if f right ∈ EXPONENTS then some (right, f right) else none) n =
      (if f n ∈ EXPONENTS then .value (f n) else .arithmeticError) := by
  induction rs with
  | nil => cases hn
  | cons r rest ih =>
    have hnd' : rest.Nodup := hnd.of_cons
    have hr_not : r ∉ rest := (List.nodup_cons.mp hnd).1
    rw [List.filterMap_cons]
    by_cases heq : n = r
    · subst heq
      by_cases hdom : f n ∈ EXPONENTS
      · rw [if_pos hdom]
        unfold evalConditionalType
        rw [if_pos rfl, if_pos hdom]
      · rw [if_neg hdom, if_neg hdom]
        exact evalConditionalType_no_match _ n fun p hp hpn =>
          hr_not (hpn ▸ genCurriedTypeBranches_guard_mem f rest p hp)
    · have hn' : n ∈ rest := (List.mem_cons.mp hn).resolve_left heq
      by_cases hdom : f r ∈ EXPONENTS
      · rw [if_pos hdom]
        unfold evalConditionalType
        rw [if_neg heq]
        exact ih hnd' hn'
      · rw [if_neg hdom]
        exact ih hnd' hn'

/-- Claim C1: for every pair of exponents in the domain, the generated curried
lookup's entry equals `compute(left, right)` when that result is in the domain
and the `ArithmeticError` marker otherwise — no pair is left unhandled. -/
theorem genCurriedTypeLookup_total (options : OperatorCodeGenOptions)
    (left right : ℤ) (_hl : left ∈ EXPONENTS) (hr : right ∈ EXPONENTS) :
    genCurriedTypeLookup options left right =
      (if options.compute left right ∈ EXPONENTS then
        .value (options.compute left right)
      else .arithmeticError) := by
  have hnd : EXPONENTS.Nodup := by decide
  have := evalConditionalType_filterMap (options.compute left) EXPONENTS hnd right hr
  simpa [genCurriedTypeLookup, genCurriedTypeBranches] using this

/-- Closed instance of C1: the addition operator's table at `(3, 2)` yields the
in-domain result `5`, and at `(3, 4)` the `ArithmeticError` marker. -/
theorem genCurriedTypeLookup_total_witness :
    (3 : ℤ) ∈ EXPONENTS ∧ (2 : ℤ) ∈ EXPONENTS ∧ (4 : ℤ) ∈ EXPONENTS ∧
    genCurriedTypeLookup ⟨fun _ => none, fun a b => a + b⟩ 3 2 =
      (if ((3 : ℤ) + 2) ∈ EXPONENTS then .value ((3 : ℤ) + 2) else .arithmeticError) ∧
    genCurriedTypeLookup ⟨fun _ => none, fun a b => a + b⟩ 3 4 =
      (if ((3 : ℤ) + 4) ∈ EXPONENTS then .value ((3 : ℤ) + 4) else .arithmeticError) :=
  ⟨by decide, by decide, by decide,
    genCurriedTypeLookup_total ⟨fun _ => none, fun a b => a + b⟩ 3 2
      (by decide) (by decide),
    genCurriedTypeLookup_total ⟨fun _ => none, fun a b => a + b⟩ 3 4
      (by decide) (by decide)⟩

/-- Claim C6: for a left exponent with a special case, the uncurried type's
branch for it is exactly the supplied expression and no curried table is
emitted for it; for a left exponent without one, the branch refers to the
generated curried lookup and a curried table is emitted. -/
theorem genOperatorTypes_special_cases (options : OperatorCodeGenOptions)
    (left : ℤ) (hl : left ∈ EXPONENTS) :
    (∀ expr, options.specialCases left = some expr →
      (left, UncurriedBranch.special expr) ∈ genUncurriedTypeBranches options ∧
      left ∉ genOperatorTypesCurriedTables options) ∧
    (options.specialCases left = none →
      (left, UncurriedBranch.curriedRef left) ∈ genUncurriedTypeBranches options ∧
      left ∈ genOperatorTypesCurriedTables options) ∧
    (∀ b₁ b₂, (left, b₁) ∈ genUncurriedTypeBranches options →
      (left, b₂) ∈ genUncurriedTypeBranches options → b₁ = b₂) := by
  refine ⟨fun expr hexpr => ⟨?_, ?_⟩, fun hnone => ⟨?_, ?_⟩, fun b₁ b₂ h₁ h₂ => ?_⟩
  · refine List.mem_map.mpr ⟨left, hl, ?_⟩
    rw [hexpr]
  · intro hmem
    have := (List.mem_filter.mp hmem).2
    rw [hexpr] at this
    simp [Option.isNone] at this
  · refine List.mem_map.mpr ⟨left, hl, ?_⟩
    rw [hnone]
  · exact List.mem_filter.mpr ⟨hl, by rw [hnone]; rfl⟩
  · obtain ⟨l₁, _, he₁⟩ := List.mem_map.mp h₁
    obtain ⟨l₂, _, he₂⟩ := List.mem_map.mp h₂
    have hl₁ : l₁ = left := by
      rcases hc : options.specialCases l₁ with _ | e <;> rw [hc] at he₁ <;>
        exact congrArg Prod.fst he₁
    have hl₂ : l₂ = left := by
      rcases hc : options.specialCases l₂ with _ | e <;> rw [hc] at he₂ <;>
        exact congrArg Prod.fst he₂
    rw [hl₁] at he₁
    rw [hl₂] at he₂
    rcases hc : options.specialCases left with _ | e <;> rw [hc] at he₁ he₂ <;>
      exact (congrArg Prod.snd he₁).symm.trans (congrArg Prod.snd he₂)

/-- Closed instance of C6: with a special case at 0, the branch for 0 is the
supplied expression and no curried table is emitted for 0; the branch for 1 is
a curried-lookup reference and a table is emitted for 1. -/
theorem genOperatorTypes_special_cases_witness :
    ((0 : ℤ), UncurriedBranch.special "0") ∈
      genUncurriedTypeBranches ⟨fun l => if l = 0 then some "0" else none, fun a b => a * b⟩ ∧
    (0 : ℤ) ∉ genOperatorTypesCurriedTables
      ⟨fun l => if l = 0 then some "0" else none, fun a b => a * b⟩ ∧
    ((1 : ℤ), UncurriedBranch.curriedRef 1) ∈
      genUncurriedTypeBranches ⟨fun l => if l = 0 then some "0" else none, fun a b => a * b⟩ ∧
    (1 : ℤ) ∈ genOperatorTypesCurriedTables
      ⟨fun l => if l = 0 then some "0" else none, fun a b => a * b⟩ := by
  refine ⟨?_, ?_, ?_, ?_⟩
  · exact ((genOperatorTypes_special_cases _ 0 (by decide)).1 "0" rfl).1
  · exact ((genOperatorTypes_special_cases _ 0 (by decide)).1 "0" rfl).2
  · exact ((genOperatorTypes_special_cases _ 1 (by decide)).2.1 rfl).1
  · exact ((genOperatorTypes_special_cases _ 1 (by decide)).2.1 rfl).2

/-- Claim C7: for measures with equal units, `in(unit)` divides this measure's
value by the given unit-measure's value and formats the quotient followed by
the given unit's symbol; when the given unit carries no symbol it returns
exactly `toString()`'s output. -/
theorem measure_in_unit_behavior {N : Type} (num : INumericOperations N)
    (m unit : GenericMeasure N) (_hunits : m.unit = unit.unit) :
    (∀ s, unit.symbol = some s →
      m.inUnit num unit = num.format (num.div m.value unit.value) ++ " " ++ s) ∧
    (unit.symbol = none → m.inUnit num unit = m.toDisplayString num) := by
  constructor
  · intro s hs
    unfold GenericMeasure.inUnit
    rw [hs]
  · intro hs
    unfold GenericMeasure.inUnit
    rw [hs]

/-- Closed instance of C7 over `ℤ` measures: `6 m` expressed in a `2 m` unit
named `"x"`, and in a symbolless unit-measure. -/
theorem measure_in_unit_behavior_witness :
    GenericMeasure.inUnit intOps ⟨6, [some ("m", 1)], none⟩ ⟨2, [some ("m", 1)], some "x"⟩ =
      intOps.format (intOps.div 6 2) ++ " " ++ "x" ∧
    GenericMeasure.inUnit intOps ⟨6, [some ("m", 1)], none⟩ ⟨2, [some ("m", 1)], none⟩ =
      GenericMeasure.toDisplayString intOps ⟨6, [some ("m", 1)], none⟩ :=
  ⟨(measure_in_unit_behavior intOps ⟨6, [some ("m", 1)], none⟩
      ⟨2, [some ("m", 1)], some "x"⟩ rfl).1 "x" rfl,
    (measure_in_unit_behavior intOps ⟨6, [some ("m", 1)], none⟩
      ⟨2, [some ("m", 1)], none⟩ rfl).2 rfl⟩

/-- Claim C8: `squared` (resp. `cubed`) is an available operation exactly when
2 (resp. 3) is an allowed exponent for the measure's unit, and when available
it is exactly `toThe(2)` (resp. `toThe(3)`). -/
theorem squared_cubed_gating {N : Type} (num : INumericOperations N)
    (m : GenericMeasure N) :
    ((squared num m).isSome ↔ allowedExponent m.unit 2 = true) ∧
    (∀ r, squared num m = some r → r = toThe num m 2) ∧
    ((cubed num m).isSome ↔ allowedExponent m.unit 3 = true) ∧
    (∀ r, cubed num m = some r → r = toThe num m 3) := by
  refine ⟨?_, ?_, ?_, ?_⟩
  · unfold squared
    by_cases h : allowedExponent m.unit 2 <;> simp [h]
  · intro r hr
    unfold squared at hr
    by_cases h : allowedExponent m.unit 2
    · rw [if_pos h] at hr
      exact (Option.some_inj.mp hr).symm
    · rw [if_neg h] at hr
      cases hr
  · unfold cubed
    by_cases h : allowedExponent m.unit 3 <;> simp [h]
  · intro r hr
    unfold cubed at hr
    by_cases h : allowedExponent m.unit 3
    · rw [if_pos h] at hr
      exact (Option.some_inj.mp hr).symm
    · rw [if_neg h] at hr
      cases hr

/-- Closed instance of C8: on a `{m: 1}` measure both `squared` and `cubed`
are offered, and `squared` is `toThe(2)`; on a `{m: 3}` measure `squared` is
not offered, since `3 * 2` leaves the domain. -/
theorem squared_cubed_gating_witness :
    (squared intOps ⟨2, [some ("m", 1)], none⟩).isSome = true ∧
    (cubed intOps ⟨2, [some ("m", 1)], none⟩).isSome = true ∧
    (∀ r, squared intOps ⟨2, [some ("m", 1)], none⟩ = some r →
      r = toThe intOps ⟨2, [some ("m", 1)], none⟩ 2) ∧
    ¬(squared intOps ⟨2, [some ("m", 3)], none⟩).isSome = true :=
  ⟨(squared_cubed_gating intOps ⟨2, [some ("m", 1)], none⟩).1.mpr (by decide),
    (squared_cubed_gating intOps ⟨2, [some ("m", 1)], none⟩).2.2.1.mpr (by decide),
    (squared_cubed_gating intOps ⟨2, [some ("m", 1)], none⟩).2.1,
    fun h => absurd ((squared_cubed_gating intOps ⟨2, [some ("m", 3)], none⟩).1.mp h)
      (by decide)⟩

end SafeUnits
